import Mathlib

/-!
Shallow embedding of the `argdoc` repository (a docstring-augmentation
decorator) and proofs about its registry and rendering behaviour.

The repository contains two near-duplicate decorator implementations:

* the "flat" variant `src/argdoc.py` (`ArgDoc`), based on `getargspec`:
  it pops named arguments and their trailing defaults off the end of the
  argument list, looks each one up in the registry, and renders a Numpy
  formatted section; and
* the "package" variant `src/argdoc/argdoc.py` (`ArgDoc` /
  `__ArgDocumenter`), based on `inspect.signature`: it walks the
  parameter sequence in declaration order with `has_args` /
  `has_keywords` / `has_vargs` / `has_vkeywords` flags and renders
  either Numpy or Google formatted sections.

Python dictionaries are modelled as insertion-ordered association lists,
default values and `str()` renderings as plain strings, and exceptions as
an explicit error type threaded through `Except` or `Option Err` paired
with the post-state where the original code mutates state in place.
-/

namespace Argdoc

/-- Insertion-ordered string-keyed lookup, modelling Python `dict` access. -/
def lookupD {α : Type} : List (String × α) → String → Option α
  | [], _ => none
  | (k, v) :: rest, key => if k = key then some v else lookupD rest key

/-- Membership test, modelling Python `name in store`. -/
def memD {α : Type} (d : List (String × α)) (key : String) : Bool :=
  (lookupD d key).isSome

/-- Update-or-append, modelling Python `store[name] = value`: an existing key
keeps its position (insertion order preserved), a new key is appended. -/
def setD {α : Type} : List (String × α) → String → α → List (String × α)
  | [], key, v => [(key, v)]
  | (k, w) :: rest, key, v =>
    if k = key then (k, v) :: rest else (k, w) :: setD rest key v

/-- Python exceptions raised by the code under `src/`. -/
inductive Err where
  | keyError (msg : String)
  | valueError (msg : String)
  | attributeError (msg : String)
  | indexError
deriving DecidableEq, Repr

/-- The `typ` argument of the registration methods: either a class object
(whose `__name__` is used) or any other value (whose `str()` is used). -/
inductive Typ where
  | cls (name : String)
  | other (str : String)
deriving DecidableEq, Repr

/-- Embeds `try: typ = typ.__name__ except AttributeError: typ = str(typ)`
(identical in `src/argdoc.py` and `src/argdoc/argdoc.py`). -/
def displayTyp : Typ → String
  | .cls n => n
  | .other s => s

/-- A registry record `{type: ..., desc: ...}` with an optional
`default` key, as stored by `__register_param`. -/
structure Rec where
  type : String
  desc : String
  default : Option String
deriving DecidableEq, Repr

/-- Embeds `ArgDoc.__register_param` (identical, line for line, in
`src/argdoc.py` lines 94-112 and `src/argdoc/argdoc.py` lines 197-215).
`errstr` distinguishes the positional from the keyword namespace in the
duplicate-registration message.  Returns the post-state of the store
together with the exception, if any. -/
def registerParam (errstr : String) (store : List (String × Rec)) (name : String)
    (typ : Typ) (desc : String) (default : Option String) (force : Bool) :
    List (String × Rec) × Option Err :=
  if !force && memD store name then
    (store, some (.keyError s!"{errstr} {name} already registered."))
  else
    let t := displayTyp typ
    let store1 := setD store name { type := t, desc := desc, default := none }
    match default with
    | none => (store1, none)
    | some d => (setD store1 name { type := t, desc := desc, default := some d }, none)

/-- The two registry namespaces owned by one `ArgDoc` instance
(`self.positional` / `self.keywords` in the flat variant,
`self.arguments` / `self.keywords` in the package variant). -/
structure RegPair where
  positional : List (String × Rec)
  keywords : List (String × Rec)
deriving DecidableEq, Repr

/-- A freshly constructed registry (`self.positional = {}` etc.). -/
def emptyReg : RegPair := { positional := [], keywords := [] }

/-- Embeds `ArgDoc.register_positional` (flat variant) / `register_argument`
(package variant): both forward to `__register_param` with
`keyword=False` and no default. -/
def registerPositional (reg : RegPair) (name : String) (typ : Typ) (desc : String)
    (force : Bool) : RegPair × Option Err :=
  let r := registerParam "Positional argument" reg.positional name typ desc none force
  ({ reg with positional := r.1 }, r.2)

/-- Embeds `register_keyword` of the flat variant `src/argdoc.py` line 183:
`self.__register_param(name, typ, desc, force=force, keyword=True)` —
note that it does NOT forward its `default` argument, so the record is
always stored without a `default` key. -/
def registerKeywordOld (reg : RegPair) (name : String) (typ : Typ) (desc : String)
    (_default : Option String) (force : Bool) : RegPair × Option Err :=
  let r := registerParam "Keyword argument" reg.keywords name typ desc none force
  ({ reg with keywords := r.1 }, r.2)

/-- Embeds `register_keyword` of the package variant `src/argdoc/argdoc.py`
line 236: forwards `default=default` to `__register_param`. -/
def registerKeywordNew (reg : RegPair) (name : String) (typ : Typ) (desc : String)
    (default : Option String) (force : Bool) : RegPair × Option Err :=
  let r := registerParam "Keyword argument" reg.keywords name typ desc default force
  ({ reg with keywords := r.1 }, r.2)

/-! ### The flat variant `src/argdoc.py`: `ArgDoc.__call__` -/

/-- The decorated object as seen by the flat variant through
`getargspec`: its docstring (`None` modelled as `none`), the list of
named parameters in declaration order, and the default values (as their
`str()` renderings) for the trailing parameters.  Variadic captures are
returned separately by `getargspec` and never consulted by this variant. -/
structure OldObj where
  doc : Option String
  args : List String
  defaults : List String
deriving DecidableEq, Repr

/-- Python `str` whitespace (the characters `str.strip()` removes). -/
def isPyWhitespace (c : Char) : Bool :=
  c == ' ' || c == '\t' || c == '\n' || c == '\r' || c == '\x0b' || c == '\x0c'

/-- Python `str.strip()`: drop leading and trailing whitespace. -/
def pyStrip (s : String) : String :=
  ⟨((s.data.dropWhile isPyWhitespace).reverse.dropWhile isPyWhitespace).reverse⟩

/-- Embeds `ArgDoc.__create_numpy_format_argument` (`src/argdoc.py` lines 185-191). -/
def createNumpyFormatArgument (name : String) (info : Rec) : String :=
  match info.default with
  | some d =>
    let t := info.type
    let ds := info.desc
    s!"{name} : {t}, optional\n    {ds} Default: {d}\n"
  | none =>
    let t := info.type
    let ds := info.desc
    s!"{name} : {t}\n    {ds}\n"

/-- Result of the keyword-popping loop of `ArgDoc.__call__`
(`src/argdoc.py` lines 53-65): the post-state of the keyword registry
(the loop mutates shared record dicts), the local `keywords` dict, the
arguments not yet popped (still reversed), and the exception, if any. -/
structure KwScanOut where
  regKw : List (String × Rec)
  kws : List (String × Rec)
  argsRev : List String
  err : Option Err
deriving DecidableEq, Repr

/-- The `while defaults:` loop of `ArgDoc.__call__` (`src/argdoc.py`
lines 53-65), operating on the reversed argument and default lists
(Python pops from the end).  `keywords[kw] = self.keywords[kw]` aliases
the stored record dict, so the back-fill
`keywords[kw][default] = default` (executed when the record has no
`default` key) also updates the registry record in place. -/
def oldKwLoop (ignore : List String) (regKw : List (String × Rec))
    (argsRev defaultsRev : List String) (acc : List (String × Rec)) : KwScanOut :=
  match defaultsRev with
  | [] => { regKw := regKw, kws := acc, argsRev := argsRev, err := none }
  | d :: drest =>
    match argsRev with
    | [] => { regKw := regKw, kws := acc, argsRev := [], err := some .indexError }
    | kw :: arest =>
      if ignore.contains kw then oldKwLoop ignore regKw arest drest acc
      else
        match lookupD regKw kw with
        | none =>
          { regKw := regKw, kws := acc, argsRev := arest, err := some (.keyError kw) }
        | some info =>
          match info.default with
          | some _ => oldKwLoop ignore regKw arest drest (setD acc kw info)
          | none =>
            let info2 := { type := info.type, desc := info.desc, default := some d }
            oldKwLoop ignore (setD regKw kw info2) arest drest (setD acc kw info2)

/-- The `while args:` loop of `ArgDoc.__call__` (`src/argdoc.py` lines
68-75), operating on the remaining reversed argument list; returns the
local `positional` dict and the exception, if any. -/
def oldPosLoop (ignore : List String) (regPos : List (String × Rec))
    (argsRev : List String) (acc : List (String × Rec)) :
    List (String × Rec) × Option Err :=
  match argsRev with
  | [] => (acc, none)
  | a :: rest =>
    if ignore.contains a then oldPosLoop ignore regPos rest acc
    else
      match lookupD regPos a with
      | none => (acc, some (.keyError a))
      | some info => oldPosLoop ignore regPos rest (setD acc a info)

/-- Embeds `for argname, arginfo in d.items(): doc += __create_numpy_format_argument(...)` —
renders every entry of a local dict in insertion order. -/
def renderOldEntries (d : List (String × Rec)) : String :=
  d.foldl (fun acc p => acc ++ createNumpyFormatArgument p.1 p.2) ""

/-- Result of applying the flat decorator: the post-state of the registry
(possibly mutated through record aliasing), the object with its updated
docstring, and the exception, if any. -/
structure OldOut where
  reg : RegPair
  obj : OldObj
  err : Option Err
deriving DecidableEq, Repr

/-- Embeds `ArgDoc.__call__` of the flat variant (`src/argdoc.py` lines 37-92).
`hasattr(obj, __doc__)` is always true for Python functions and
classes (the attribute exists with value `None` when no docstring was
written), so the `raise AttributeError(Object has no docstring)`
branch is unreachable and the main branch is taken unconditionally.
`doc = obj.__doc__ if obj.__doc__ else empty` treats both `None` and the
empty string as empty, then strips surrounding whitespace.  Rendering
always uses the Numpy templates: `__init__` discards its `form`
argument. -/
def oldCall (reg : RegPair) (ignore : List String) (obj : OldObj) : OldOut :=
  let kout := oldKwLoop ignore reg.keywords obj.args.reverse obj.defaults.reverse []
  let reg1 : RegPair := { positional := reg.positional, keywords := kout.regKw }
  match kout.err with
  | some e => { reg := reg1, obj := obj, err := some e }
  | none =>
    let pout := oldPosLoop ignore reg.positional kout.argsRev []
    match pout.2 with
    | some e => { reg := reg1, obj := obj, err := some e }
    | none =>
      let doc0 := pyStrip (match obj.doc with | some s => s | none => "")
      let doc1 :=
        if pout.1.isEmpty then doc0
        else doc0 ++ "\n\nArguments\n----------\n" ++ renderOldEntries pout.1
      let doc2 :=
        if kout.kws.isEmpty then doc1
        else doc1 ++ "\n\nKeyword Arguments\n-----------------\n" ++ renderOldEntries kout.kws
      let doc3 := doc2 ++ "    \n"
      { reg := reg1,
        obj := { doc := some doc3, args := obj.args, defaults := obj.defaults },
        err := none }

/-! ### The package variant `src/argdoc/argdoc.py`: `__ArgDocumenter.__call__` -/

/-- Embeds the `inspect.Parameter.kind` values. -/
inductive Kind where
  | positionalOnly
  | positionalOrKeyword
  | varPositional
  | keywordOnly
  | varKeyword
deriving DecidableEq, Repr

/-- Embeds `POSITIONALS = [POSITIONAL_ONLY, POSITIONAL_OR_KEYWORD, VAR_POSITIONAL]`
(`src/argdoc/argdoc.py` line 22). -/
def positionalKinds : List Kind := [.positionalOnly, .positionalOrKeyword, .varPositional]

/-- One entry of `signature(obj).parameters`: name, kind, and default
value (`none` models `inspect._empty`, i.e. no declared default; a
present default is kept as its `str()` rendering, which is all the
renderer ever uses of it). -/
structure Param where
  name : String
  kind : Kind
  default : Option String
deriving DecidableEq, Repr

/-- The decorated object as seen by the package variant: its docstring
and its signature parameter sequence in declaration order. -/
structure NewObj where
  doc : Option String
  params : List Param
deriving DecidableEq, Repr

/-- The `form` argument: the source only produces output for `numpy`
and `google` (its header helpers return `None` for anything else,
which would make `doc += ...` fail with a `TypeError`; no claim concerns
other form strings). -/
inductive Form where
  | numpy
  | google
deriving DecidableEq, Repr

/-- Embeds `__ArgDocumenter.__get_argument_header`. -/
def argumentHeader : Form → String
  | .numpy => "\n\nArguments\n----------\n"
  | .google => "\n\nArgs:\n"

/-- Embeds `__ArgDocumenter.__get_keyword_header`. -/
def keywordHeader : Form → String
  | .numpy => "\n\nKeyword Arguments\n-----------------\n"
  | .google => "\n\nKeywords:\n"

/-- Embeds `__ArgDocumenter.__get_error_header`. -/
def errorHeader : Form → String
  | .numpy => "\n\nRaises\n------\n"
  | .google => "\n\nRaises:\n"

/-- The body of `__ArgDocumenter.__create_argument_doc` after the registry
lookup succeeded. -/
def argEntryStr (form : Form) (name : String) (info : Rec) : String :=
  let t := info.type
  let ds := info.desc
  match form with
  | .numpy => s!"{name} : {t}\n    {ds}\n"
  | .google => s!"    {name} ({t}): {ds}\n"

/-- Models `str(inspect._empty)`, rendered when a keyword-side parameter has
neither a registered nor a declared default.  (The actual CPython text
carries quote characters around `inspect._empty`; they are omitted here,
and no claim depends on this corner.) -/
def emptyDisplay : String := "<class inspect._empty>"

/-- The body of `__ArgDocumenter.__create_keyword_doc` after the registry
lookup succeeded: `default` is the stored `default` value if present,
else the declared default of the parameter (`try: ... except KeyError`).
In the Google template the original format string has only three
placeholders, so the default is not shown. -/
def kwEntryStr (form : Form) (name : String) (info : Rec) (pdefault : Option String) :
    String :=
  let t := info.type
  let ds := info.desc
  let d := match info.default with
    | some d0 => d0
    | none => match pdefault with
      | some pd => pd
      | none => emptyDisplay
  match form with
  | .numpy => s!"{name} : {t}, optional\n    {ds} Default: {d}\n"
  | .google => s!"    {name} ({t}, optional): {ds}\n"

/-- Embeds `__ArgDocumenter.__create_argument_doc` (`src/argdoc/argdoc.py`
lines 154-160): `info = self.arguments[param.name]` raises `KeyError`
on an unregistered name. -/
def createArgumentDoc (form : Form) (arguments : List (String × Rec)) (p : Param) :
    Except Err String :=
  match lookupD arguments p.name with
  | none => .error (.keyError p.name)
  | some info => .ok (argEntryStr form p.name info)

/-- Embeds `__ArgDocumenter.__create_keyword_doc` (`src/argdoc/argdoc.py`
lines 162-174): `info = self.keywords[param.name]` raises `KeyError`
on an unregistered name. -/
def createKeywordDoc (form : Form) (keywords : List (String × Rec)) (p : Param) :
    Except Err String :=
  match lookupD keywords p.name with
  | none => .error (.keyError p.name)
  | some info => .ok (kwEntryStr form p.name info p.default)

/-- Embeds `__ArgDocumenter.__create_vargs_doc` (note: the source emits no
trailing newline here). -/
def vargsDoc (form : Form) (p : Param) : String :=
  let n := p.name
  match form with
  | .numpy => s!"*{n}\n    Variable length argument list."
  | .google => s!"    *{n}: Variable length argument list."

/-- Embeds `__ArgDocumenter.__create_vkeywords_doc` (no trailing newline in the
source). -/
def vkwDoc (form : Form) (p : Param) : String :=
  let n := p.name
  match form with
  | .numpy => s!"**{n}\n    Arbitrary keyword arguments."
  | .google => s!"    **{n}: Arbitrary keyword arguments."

/-- Embeds `__ArgDocumenter.__create_error_doc`. -/
def errorDoc (form : Form) (name condition : String) : String :=
  match form with
  | .numpy => s!"{name}\n    {condition}\n"
  | .google => s!"    {name}: {condition}\n"

/-- Embeds `for ename, econd in self.raises.items(): doc += __create_error_doc(...)`. -/
def renderRaises (form : Form) (raises : List (String × String)) : String :=
  raises.foldl (fun acc p => acc ++ errorDoc form p.1 p.2) ""

/-- The guard `param.kind in POSITIONALS and param.default is _empty`
selecting the argument branch of the scan. -/
def isArgBranch (p : Param) : Bool :=
  positionalKinds.contains p.kind && p.default == none

/-- The `for param in sig.parameters.values():` loop of
`__ArgDocumenter.__call__` (`src/argdoc/argdoc.py` lines 83-117), with
its four flags and the growing docstring made explicit. -/
def scanLoop (form : Form) (arguments keywords : List (String × Rec))
    (ignoreArgs ignoreKws : List String) :
    List Param → Bool → Bool → Bool → Bool → String → Except Err String
  | [], _, _, _, _, doc => .ok doc
  | p :: rest, hasA, hasK, hasV, hasVK, doc =>
    if isArgBranch p then
      if ignoreArgs.contains p.name then
        scanLoop form arguments keywords ignoreArgs ignoreKws rest hasA hasK hasV hasVK doc
      else if hasK then .error (.valueError "Argument encountered after keyword")
      else if hasV then .error (.valueError "Argument encountered after vargs")
      else
        let doc1 := if hasA then doc else doc ++ argumentHeader form
        if p.kind == .varPositional then
          scanLoop form arguments keywords ignoreArgs ignoreKws rest true hasK true hasVK
            (doc1 ++ vargsDoc form p)
        else
          match createArgumentDoc form arguments p with
          | .error e => .error e
          | .ok s =>
            scanLoop form arguments keywords ignoreArgs ignoreKws rest true hasK hasV hasVK
              (doc1 ++ s)
    else
      if ignoreKws.contains p.name then
        scanLoop form arguments keywords ignoreArgs ignoreKws rest hasA hasK hasV hasVK doc
      else if hasV then .error (.valueError "Keyword encountered after vargs")
      else if hasVK then .error (.valueError "Keyword encountered after vkeywords")
      else
        let doc1 := if hasK then doc else doc ++ keywordHeader form
        if p.kind == .varKeyword then
          scanLoop form arguments keywords ignoreArgs ignoreKws rest hasA true hasV true
            (doc1 ++ vkwDoc form p)
        else
          match createKeywordDoc form keywords p with
          | .error e => .error e
          | .ok s =>
            scanLoop form arguments keywords ignoreArgs ignoreKws rest hasA true hasV hasVK
              (doc1 ++ s)

/-- Embeds `__ArgDocumenter.__call__` (`src/argdoc/argdoc.py` lines 70-134).
`hasattr(obj, __doc__)` is always true for Python functions and
classes, so the `raise AttributeError(Object has no docstring)` branch
is unreachable.  `inspect.getdoc` is modelled as the identity on the
docstring (its indentation normalisation is irrelevant to every claim);
`if not doc: doc = empty` maps `None` to the empty string.  The registries
are only read, never written, so no registry post-state is threaded. -/
def documentNew (form : Form) (arguments keywords : List (String × Rec))
    (raises : List (String × String)) (ignoreArgs ignoreKws : List String)
    (obj : NewObj) : Except Err NewObj :=
  let doc := match obj.doc with | some s => s | none => ""
  match scanLoop form arguments keywords ignoreArgs ignoreKws obj.params
      false false false false doc with
  | .error e => .error e
  | .ok doc1 =>
    let doc2 := if raises.isEmpty then doc1 else doc1 ++ errorHeader form ++ renderRaises form raises
    .ok { doc := some (doc2 ++ "    \n"), params := obj.params }

/-! ### Spec-side definitions

These definitions follow the words of the specification (one rendered entry
per non-ignored parameter, in declared signature order, ordinary section
before keyword section) and are compared with the behaviour of the
source-derived functions above. -/

/-- Concatenation of a list of strings, in order. -/
def strConcat : List String → String
  | [] => ""
  | s :: rest => s ++ strConcat rest

/-- A parameter the scan classifies into the ordinary/argument branch but
that is not the variadic-positional capture. -/
def plainOrdinary (p : Param) : Bool :=
  isArgBranch p && p.kind != .varPositional

/-- A parameter the scan classifies into the keyword branch but that is
not the variadic-keyword capture (a "defaulted" parameter). -/
def defaultedSide (p : Param) : Bool :=
  !isArgBranch p && p.kind != .varKeyword

/-- Processing `p` (non-ignored) sets the `has_vargs` flag. -/
def setsVargs (p : Param) : Bool :=
  isArgBranch p && p.kind == .varPositional

/-- Processing `p` (non-ignored) sets the `has_vkeywords` flag. -/
def setsVkw (p : Param) : Bool :=
  !isArgBranch p && p.kind == .varKeyword

/-- Whether the scan documents `p` at all: the argument branch consults
`ignore_args`, the keyword branch `ignore_kws`. -/
def survives (ignoreArgs ignoreKws : List String) (p : Param) : Bool :=
  if isArgBranch p then !ignoreArgs.contains p.name else !ignoreKws.contains p.name

/-- The non-ignored parameters, in declaration order. -/
def visibleParams (ignoreArgs ignoreKws : List String) (ps : List Param) : List Param :=
  ps.filter (survives ignoreArgs ignoreKws)

/-- Ordered pair discipline accepted by the scan: a later argument-branch
parameter is rejected after any keyword-branch parameter or after the
variadic-positional capture, and a later keyword-branch parameter is
rejected after either variadic capture. -/
def allowedPair (a b : Param) : Bool :=
  !((isArgBranch b && (!isArgBranch a || setsVargs a)) ||
    (!isArgBranch b && (setsVargs a || setsVkw a)))

/-- The orderings named by the specification as malformed: an ordinary
parameter after a defaulted or variadic-positional parameter, or a
defaulted parameter after the variadic-keyword capture. -/
def claimBadPair (a b : Param) : Bool :=
  (plainOrdinary b && (defaultedSide a || setsVargs a)) ||
  (defaultedSide b && setsVkw a)

/-- Whether some earlier/later pair of the list is malformed in the sense
of `claimBadPair`. -/
def someBadPair : List Param → Bool
  | [] => false
  | a :: rest => rest.any (fun b => claimBadPair a b) || someBadPair rest

/-- The registration demanded of a non-ignored parameter: ordinary
parameters in the `arguments` namespace, defaulted parameters in the
`keywords` namespace; the variadic captures need no registration. -/
def registeredFor (arguments keywords : List (String × Rec)) (p : Param) : Bool :=
  if isArgBranch p then p.kind == .varPositional || memD arguments p.name
  else p.kind == .varKeyword || memD keywords p.name

/-- Spec-side rendering of one argument-section entry. -/
def specArgEntry (form : Form) (arguments : List (String × Rec)) (p : Param) : String :=
  if p.kind == .varPositional then vargsDoc form p
  else
    match lookupD arguments p.name with
    | some info => argEntryStr form p.name info
    | none => ""

/-- Spec-side rendering of one keyword-section entry. -/
def specKwEntry (form : Form) (keywords : List (String × Rec)) (p : Param) : String :=
  if p.kind == .varKeyword then vkwDoc form p
  else
    match lookupD keywords p.name with
    | some info => kwEntryStr form p.name info p.default
    | none => ""

/-- Spec-side parameter sections: exactly one rendered entry per
non-ignored parameter, ordinary entries first and then keyword entries,
each section in declared signature order, each section preceded by its
header when nonempty (the flags tell whether a header was already
emitted). -/
def specSections (form : Form) (arguments keywords : List (String × Rec))
    (ignoreArgs ignoreKws : List String) (hasA hasK : Bool) (ps : List Param) : String :=
  let vis := visibleParams ignoreArgs ignoreKws ps
  let ord := vis.filter isArgBranch
  let dft := vis.filter (fun p => !isArgBranch p)
  (if ord.isEmpty || hasA then "" else argumentHeader form) ++
    (strConcat (ord.map (specArgEntry form arguments)) ++
      ((if dft.isEmpty || hasK then "" else keywordHeader form) ++
        strConcat (dft.map (specKwEntry form keywords))))

/-! ### Dictionary lemmas -/

theorem lookupD_setD {α : Type} (d : List (String × α)) (k k' : String) (v : α) :
    lookupD (setD d k v) k' = if k = k' then some v else lookupD d k' := by
  induction d with
  | nil => simp [setD, lookupD]
  | cons hd tl ih =>
    obtain ⟨k0, v0⟩ := hd
    by_cases h0 : k0 = k
    · subst h0
      by_cases h1 : k0 = k' <;> simp [setD, lookupD, h1]
    · by_cases h1 : k0 = k'
      · subst h1
        have h2 : ¬k = k0 := fun h => h0 h.symm
        simp [setD, lookupD, h0, h2]
      · simp [setD, lookupD, h0, h1, ih]

theorem memD_setD {α : Type} (d : List (String × α)) (k k' : String) (v : α) :
    memD (setD d k v) k' = (k = k' || memD d k') := by
  by_cases h : k = k' <;> simp [memD, lookupD_setD, h]

/-! ### Scan characterisation lemmas (package variant) -/

theorem visible_cons (ignA ignK : List String) (p : Param) (rest : List Param) :
    visibleParams ignA ignK (p :: rest) =
      if survives ignA ignK p then p :: visibleParams ignA ignK rest
      else visibleParams ignA ignK rest := by
  simp [visibleParams, List.filter_cons]

/-- Characterisation of a successful scan: under the ordering discipline
the scan accepts, with every non-ignored parameter registered, the loop
appends exactly the spec-side sections to the accumulated docstring. -/
theorem scanLoop_ok (form : Form) (arguments keywords : List (String × Rec))
    (ignA ignK : List String) :
    ∀ (ps : List Param) (hasA hasK hasV hasVK : Bool) (doc : String),
    (hasV = true → visibleParams ignA ignK ps = []) →
    (hasK = true → ∀ p ∈ visibleParams ignA ignK ps, isArgBranch p = false) →
    (hasVK = true → ∀ p ∈ visibleParams ignA ignK ps, isArgBranch p = true) →
    (visibleParams ignA ignK ps).Pairwise (fun a b => allowedPair a b = true) →
    (∀ p ∈ visibleParams ignA ignK ps, registeredFor arguments keywords p = true) →
    scanLoop form arguments keywords ignA ignK ps hasA hasK hasV hasVK doc =
      .ok (doc ++ specSections form arguments keywords ignA ignK hasA hasK ps) := by
  intro ps
  induction ps with
  | nil =>
    intro hasA hasK hasV hasVK doc _ _ _ _ _
    simp [scanLoop, specSections, visibleParams, strConcat]
  | cons p rest ih =>
    intro hasA hasK hasV hasVK doc hV hK hVK hord hreg
    cases hab : isArgBranch p with
    | false =>
      cases hig : ignK.contains p.name with
      | true =>
        have hm : p.name ∈ ignK := by simpa using hig
        have hsurv : survives ignA ignK p = false := by simp [survives, hab, hm]
        have hvis : visibleParams ignA ignK (p :: rest) = visibleParams ignA ignK rest := by
          rw [visible_cons, hsurv]
          simp
        rw [hvis] at hV hK hVK hord hreg
        have hrec := ih hasA hasK hasV hasVK doc hV hK hVK hord hreg
        simp only [scanLoop, hab, Bool.false_eq_true, if_false, hig, if_true]
        rw [hrec]
        simp [specSections, visible_cons, hsurv]
      | false =>
        have hm : p.name ∉ ignK := by simpa using hig
        have hsurv : survives ignA ignK p = true := by simp [survives, hab, hm]
        have hvis : visibleParams ignA ignK (p :: rest) =
            p :: visibleParams ignA ignK rest := by
          rw [visible_cons, hsurv]
          simp
        rw [hvis] at hV hK hVK hord hreg
        have hmem : p ∈ p :: visibleParams ignA ignK rest := List.mem_cons_self _ _
        have hVf : hasV = false := by
          cases hasV with
          | false => rfl
          | true => simpa using hV rfl
        have hVKf : hasVK = false := by
          cases hasVK with
          | false => rfl
          | true =>
            have h1 := hVK rfl p hmem
            rw [hab] at h1
            exact absurd h1 (by simp)
        subst hVf
        subst hVKf
        obtain ⟨hhead, htail⟩ := List.pairwise_cons.mp hord
        have hregrest : ∀ q ∈ visibleParams ignA ignK rest,
            registeredFor arguments keywords q = true :=
          fun q hq => hreg q (List.mem_cons_of_mem _ hq)
        have hrestNoArg : ∀ b ∈ visibleParams ignA ignK rest, isArgBranch b = false := by
          intro b hb
          have h1 := hhead b hb
          cases hbb : isArgBranch b
          · rfl
          · simp [allowedPair, setsVargs, setsVkw, hab, hbb] at h1
        have hordnil : (visibleParams ignA ignK rest).filter isArgBranch = [] := by
          rw [List.filter_eq_nil_iff]
          intro b hb
          simp [hrestNoArg b hb]
        cases hkind : p.kind == Kind.varKeyword with
        | true =>
          have hrestnil : visibleParams ignA ignK rest = [] := by
            cases hcase : visibleParams ignA ignK rest with
            | nil => rfl
            | cons b bs =>
              have hb := hhead b (by rw [hcase]; exact List.mem_cons_self _ _)
              have hbb := hrestNoArg b (by rw [hcase]; exact List.mem_cons_self _ _)
              simp [allowedPair, setsVargs, setsVkw, hab, hkind, hbb] at hb
          have hrec := ih hasA true false true
            ((if hasK then doc else doc ++ keywordHeader form) ++ vkwDoc form p)
            (by intro h; cases h)
            (by rw [hrestnil]; intro _ q hq; cases hq)
            (by rw [hrestnil]; intro _ q hq; cases hq)
            (by rw [hrestnil]; exact List.Pairwise.nil)
            (by rw [hrestnil]; intro q hq; cases hq)
          simp only [scanLoop, hab, Bool.false_eq_true, if_false, hig, hkind, if_true]
          rw [hrec]
          cases hasK <;>
            simp [specSections, visible_cons, hsurv, hrestnil, hab, hkind,
              specKwEntry, strConcat, String.append_assoc]
        | false =>
          have hregp := hreg p hmem
          simp only [registeredFor, hab, Bool.false_eq_true, if_false, hkind,
            Bool.false_or, memD] at hregp
          rcases Option.isSome_iff_exists.mp hregp with ⟨info, hinfo⟩
          have hrec := ih hasA true false false
            ((if hasK then doc else doc ++ keywordHeader form) ++
              kwEntryStr form p.name info p.default)
            (by intro h; cases h)
            (by intro _; exact hrestNoArg)
            (by intro h; cases h)
            htail hregrest
          simp only [scanLoop, hab, Bool.false_eq_true, if_false, hig, hkind, if_true,
            createKeywordDoc, hinfo]
          rw [hrec]
          cases hasK <;>
            simp [specSections, visible_cons, hsurv, hab, hkind, hordnil,
              specKwEntry, hinfo, strConcat, String.append_assoc]
    | true =>
      cases hig : ignA.contains p.name with
      | true =>
        have hm : p.name ∈ ignA := by simpa using hig
        have hsurv : survives ignA ignK p = false := by simp [survives, hab, hm]
        have hvis : visibleParams ignA ignK (p :: rest) = visibleParams ignA ignK rest := by
          rw [visible_cons, hsurv]
          simp
        rw [hvis] at hV hK hVK hord hreg
        have hrec := ih hasA hasK hasV hasVK doc hV hK hVK hord hreg
        simp only [scanLoop, hab, if_true, hig]
        rw [hrec]
        simp [specSections, visible_cons, hsurv]
      | false =>
        have hm : p.name ∉ ignA := by simpa using hig
        have hsurv : survives ignA ignK p = true := by simp [survives, hab, hm]
        have hvis : visibleParams ignA ignK (p :: rest) =
            p :: visibleParams ignA ignK rest := by
          rw [visible_cons, hsurv]
          simp
        rw [hvis] at hV hK hVK hord hreg
        have hmem : p ∈ p :: visibleParams ignA ignK rest := List.mem_cons_self _ _
        have hVf : hasV = false := by
          cases hasV with
          | false => rfl
          | true => simpa using hV rfl
        have hKf : hasK = false := by
          cases hasK with
          | false => rfl
          | true =>
            have h1 := hK rfl p hmem
            rw [hab] at h1
            exact absurd h1 (by simp)
        subst hVf
        subst hKf
        obtain ⟨hhead, htail⟩ := List.pairwise_cons.mp hord
        have hregrest : ∀ q ∈ visibleParams ignA ignK rest,
            registeredFor arguments keywords q = true :=
          fun q hq => hreg q (List.mem_cons_of_mem _ hq)
        cases hkind : p.kind == Kind.varPositional with
        | true =>
          have hrestnil : visibleParams ignA ignK rest = [] := by
            cases hcase : visibleParams ignA ignK rest with
            | nil => rfl
            | cons b bs =>
              have hb := hhead b (by rw [hcase]; exact List.mem_cons_self _ _)
              cases hbb : isArgBranch b <;>
                simp [allowedPair, setsVargs, setsVkw, hab, hkind, hbb] at hb
          have hrec := ih true false true hasVK
            ((if hasA then doc else doc ++ argumentHeader form) ++ vargsDoc form p)
            (by rw [hrestnil]; intro _; rfl)
            (by intro h; cases h)
            (by rw [hrestnil]; intro _ q hq; cases hq)
            (by rw [hrestnil]; exact List.Pairwise.nil)
            (by rw [hrestnil]; intro q hq; cases hq)
          simp only [scanLoop, hab, if_true, hig, Bool.false_eq_true, if_false, hkind]
          rw [hrec]
          cases hasA <;>
            simp [specSections, visible_cons, hsurv, hrestnil, hab, hkind,
              specArgEntry, strConcat, String.append_assoc]
        | false =>
          have hregp := hreg p hmem
          simp only [registeredFor, hab, if_true, hkind, Bool.false_or, memD] at hregp
          rcases Option.isSome_iff_exists.mp hregp with ⟨info, hinfo⟩
          have hrec := ih true false false hasVK
            ((if hasA then doc else doc ++ argumentHeader form) ++
              argEntryStr form p.name info)
            (by intro h; cases h)
            (by intro h; cases h)
            (by intro h q hq; exact hVK h q (List.mem_cons_of_mem _ hq))
            htail hregrest
          simp only [scanLoop, hab, if_true, hig, Bool.false_eq_true, if_false, hkind,
            createArgumentDoc, hinfo]
          rw [hrec]
          cases hasA <;>
            simp [specSections, visible_cons, hsurv, hab, hkind,
              specArgEntry, hinfo, strConcat, String.append_assoc]

/-- A successful scan requires every non-ignored parameter to be
registered in its applicable namespace: the scan visits every parameter
and its lookups raise on the unregistered ones. -/
theorem scanLoop_ok_registered (form : Form) (arguments keywords : List (String × Rec))
    (ignA ignK : List String) :
    ∀ (ps : List Param) (hasA hasK hasV hasVK : Bool) (doc s : String),
    scanLoop form arguments keywords ignA ignK ps hasA hasK hasV hasVK doc = .ok s →
    ∀ p ∈ visibleParams ignA ignK ps, registeredFor arguments keywords p = true := by
  intro ps
  induction ps with
  | nil =>
    intro _ _ _ _ _ _ _ p hp
    simp [visibleParams] at hp
  | cons p rest ih =>
    intro hasA hasK hasV hasVK doc s hscan q hq
    cases hab : isArgBranch p with
    | false =>
      cases hig : ignK.contains p.name with
      | true =>
        have hm : p.name ∈ ignK := by simpa using hig
        have hsurv : survives ignA ignK p = false := by simp [survives, hab, hm]
        rw [visible_cons, hsurv] at hq
        simp at hq
        simp only [scanLoop, hab, Bool.false_eq_true, if_false, hig, if_true] at hscan
        exact ih _ _ _ _ _ _ hscan q hq
      | false =>
        have hm : p.name ∉ ignK := by simpa using hig
        have hsurv : survives ignA ignK p = true := by simp [survives, hab, hm]
        rw [visible_cons, hsurv] at hq
        simp only [if_true] at hq
        simp only [scanLoop, hab, Bool.false_eq_true, if_false, hig, if_true] at hscan
        cases hasV with
        | true => simp at hscan
        | false =>
        cases hasVK with
        | true => simp at hscan
        | false =>
        simp only [Bool.false_eq_true, if_false] at hscan
        cases hkind : p.kind == Kind.varKeyword with
        | true =>
          rw [hkind] at hscan
          simp only [if_true] at hscan
          rcases List.mem_cons.mp hq with hqp | hqrest
          · subst hqp
            simp [registeredFor, hab, hkind]
          · exact ih _ _ _ _ _ _ hscan q hqrest
        | false =>
          rw [hkind] at hscan
          simp only [Bool.false_eq_true, if_false, createKeywordDoc] at hscan
          cases hl : lookupD keywords p.name with
          | none => rw [hl] at hscan; simp at hscan
          | some info =>
            rw [hl] at hscan
            simp only at hscan
            rcases List.mem_cons.mp hq with hqp | hqrest
            · subst hqp
              simp [registeredFor, hab, hkind, memD, hl]
            · exact ih _ _ _ _ _ _ hscan q hqrest
    | true =>
      cases hig : ignA.contains p.name with
      | true =>
        have hm : p.name ∈ ignA := by simpa using hig
        have hsurv : survives ignA ignK p = false := by simp [survives, hab, hm]
        rw [visible_cons, hsurv] at hq
        simp at hq
        simp only [scanLoop, hab, if_true, hig] at hscan
        exact ih _ _ _ _ _ _ hscan q hq
      | false =>
        have hm : p.name ∉ ignA := by simpa using hig
        have hsurv : survives ignA ignK p = true := by simp [survives, hab, hm]
        rw [visible_cons, hsurv] at hq
        simp only [if_true] at hq
        simp only [scanLoop, hab, if_true, hig, Bool.false_eq_true, if_false] at hscan
        cases hasK with
        | true => simp at hscan
        | false =>
        cases hasV with
        | true => simp at hscan
        | false =>
        simp only [Bool.false_eq_true, if_false] at hscan
        cases hkind : p.kind == Kind.varPositional with
        | true =>
          rw [hkind] at hscan
          simp only [if_true] at hscan
          rcases List.mem_cons.mp hq with hqp | hqrest
          · subst hqp
            simp [registeredFor, hab, hkind]
          · exact ih _ _ _ _ _ _ hscan q hqrest
        | false =>
          rw [hkind] at hscan
          simp only [Bool.false_eq_true, if_false, createArgumentDoc] at hscan
          cases hl : lookupD arguments p.name with
          | none => rw [hl] at hscan; simp at hscan
          | some info =>
            rw [hl] at hscan
            simp only at hscan
            rcases List.mem_cons.mp hq with hqp | hqrest
            · subst hqp
              simp [registeredFor, hab, hkind, memD, hl]
            · exact ih _ _ _ _ _ _ hscan q hqrest

/-- With every non-ignored parameter registered, the only failures the
scan can produce are the ordering `ValueError`s. -/
theorem scanLoop_reg_result (form : Form) (arguments keywords : List (String × Rec))
    (ignA ignK : List String) :
    ∀ (ps : List Param) (hasA hasK hasV hasVK : Bool) (doc : String),
    (∀ p ∈ visibleParams ignA ignK ps, registeredFor arguments keywords p = true) →
    (∃ s, scanLoop form arguments keywords ignA ignK ps hasA hasK hasV hasVK doc = .ok s) ∨
    (∃ msg, scanLoop form arguments keywords ignA ignK ps hasA hasK hasV hasVK doc =
      .error (.valueError msg)) := by
  intro ps
  induction ps with
  | nil =>
    intro hasA hasK hasV hasVK doc _
    exact Or.inl ⟨doc, rfl⟩
  | cons p rest ih =>
    intro hasA hasK hasV hasVK doc hreg
    cases hab : isArgBranch p with
    | false =>
      cases hig : ignK.contains p.name with
      | true =>
        have hm : p.name ∈ ignK := by simpa using hig
        have hsurv : survives ignA ignK p = false := by simp [survives, hab, hm]
        rw [visible_cons, hsurv] at hreg
        simp only [Bool.false_eq_true, if_false] at hreg
        simp only [scanLoop, hab, Bool.false_eq_true, if_false, hig, if_true]
        exact ih _ _ _ _ _ hreg
      | false =>
        have hm : p.name ∉ ignK := by simpa using hig
        have hsurv : survives ignA ignK p = true := by simp [survives, hab, hm]
        rw [visible_cons, hsurv] at hreg
        simp only [if_true] at hreg
        have hregrest : ∀ q ∈ visibleParams ignA ignK rest,
            registeredFor arguments keywords q = true :=
          fun q hq => hreg q (List.mem_cons_of_mem _ hq)
        simp only [scanLoop, hab, Bool.false_eq_true, if_false, hig, if_true]
        cases hasV with
        | true => exact Or.inr ⟨_, rfl⟩
        | false =>
        cases hasVK with
        | true => exact Or.inr ⟨_, rfl⟩
        | false =>
        simp only [Bool.false_eq_true, if_false]
        cases hkind : p.kind == Kind.varKeyword with
        | true =>
          simp only [if_true]
          exact ih _ _ _ _ _ hregrest
        | false =>
          simp only [Bool.false_eq_true, if_false, createKeywordDoc]
          have hregp := hreg p (List.mem_cons_self _ _)
          simp only [registeredFor, hab, Bool.false_eq_true, if_false, hkind,
            Bool.false_or, memD] at hregp
          rcases Option.isSome_iff_exists.mp hregp with ⟨info, hinfo⟩
          rw [hinfo]
          simp only
          exact ih _ _ _ _ _ hregrest
    | true =>
      cases hig : ignA.contains p.name with
      | true =>
        have hm : p.name ∈ ignA := by simpa using hig
        have hsurv : survives ignA ignK p = false := by simp [survives, hab, hm]
        rw [visible_cons, hsurv] at hreg
        simp only [Bool.false_eq_true, if_false] at hreg
        simp only [scanLoop, hab, if_true, hig]
        exact ih _ _ _ _ _ hreg
      | false =>
        have hm : p.name ∉ ignA := by simpa using hig
        have hsurv : survives ignA ignK p = true := by simp [survives, hab, hm]
        rw [visible_cons, hsurv] at hreg
        simp only [if_true] at hreg
        have hregrest : ∀ q ∈ visibleParams ignA ignK rest,
            registeredFor arguments keywords q = true :=
          fun q hq => hreg q (List.mem_cons_of_mem _ hq)
        simp only [scanLoop, hab, if_true, hig, Bool.false_eq_true, if_false]
        cases hasK with
        | true => exact Or.inr ⟨_, rfl⟩
        | false =>
        cases hasV with
        | true => exact Or.inr ⟨_, rfl⟩
        | false =>
        simp only [Bool.false_eq_true, if_false]
        cases hkind : p.kind == Kind.varPositional with
        | true =>
          simp only [if_true]
          exact ih _ _ _ _ _ hregrest
        | false =>
          simp only [Bool.false_eq_true, if_false, createArgumentDoc]
          have hregp := hreg p (List.mem_cons_self _ _)
          simp only [registeredFor, hab, if_true, hkind, Bool.false_or, memD] at hregp
          rcases Option.isSome_iff_exists.mp hregp with ⟨info, hinfo⟩
          rw [hinfo]
          simp only
          exact ih _ _ _ _ _ hregrest

/-- If the non-ignored parameter sequence contains one of the malformed
orderings (or a flag already forbids a parameter that is still to come),
the scan always fails. -/
theorem scanLoop_bad_err (form : Form) (arguments keywords : List (String × Rec))
    (ignA ignK : List String) :
    ∀ (ps : List Param) (hasA hasK hasV hasVK : Bool) (doc : String),
    (((hasK || hasV) = true ∧ ∃ b ∈ visibleParams ignA ignK ps, isArgBranch b = true) ∨
     ((hasV || hasVK) = true ∧ ∃ b ∈ visibleParams ignA ignK ps, isArgBranch b = false) ∨
     someBadPair (visibleParams ignA ignK ps) = true) →
    ∃ e, scanLoop form arguments keywords ignA ignK ps hasA hasK hasV hasVK doc =
      .error e := by
  intro ps
  induction ps with
  | nil =>
    intro hasA hasK hasV hasVK doc htrig
    rcases htrig with ⟨_, b, hb, _⟩ | ⟨_, b, hb, _⟩ | hbad
    · simp [visibleParams] at hb
    · simp [visibleParams] at hb
    · simp [visibleParams, someBadPair] at hbad
  | cons p rest ih =>
    intro hasA hasK hasV hasVK doc htrig
    cases hab : isArgBranch p with
    | false =>
      cases hig : ignK.contains p.name with
      | true =>
        have hm : p.name ∈ ignK := by simpa using hig
        have hsurv : survives ignA ignK p = false := by simp [survives, hab, hm]
        rw [visible_cons, hsurv] at htrig
        simp only [Bool.false_eq_true, if_false] at htrig
        simp only [scanLoop, hab, Bool.false_eq_true, if_false, hig, if_true]
        exact ih _ _ _ _ _ htrig
      | false =>
        have hm : p.name ∉ ignK := by simpa using hig
        have hsurv : survives ignA ignK p = true := by simp [survives, hab, hm]
        rw [visible_cons, hsurv] at htrig
        simp only [if_true] at htrig
        simp only [scanLoop, hab, Bool.false_eq_true, if_false, hig, if_true]
        cases hasV with
        | true => exact ⟨_, rfl⟩
        | false =>
        cases hasVK with
        | true => exact ⟨_, rfl⟩
        | false =>
        simp only [Bool.false_eq_true, if_false]
        cases hkind : p.kind == Kind.varKeyword with
        | true =>
          simp only [if_true]
          apply ih
          rcases htrig with ⟨hf, b, hb, hbb⟩ | ⟨hf, _⟩ | hbad
          · rcases List.mem_cons.mp hb with hbp | hbrest
            · subst hbp
              rw [hab] at hbb
              cases hbb
            · exact Or.inl ⟨by simp, b, hbrest, hbb⟩
          · exact absurd hf (by simp)
          · simp only [someBadPair, Bool.or_eq_true, List.any_eq_true] at hbad
            rcases hbad with ⟨b, hbrest, hcb⟩ | hbad2
            · cases hx : isArgBranch b with
              | false => exact Or.inr (Or.inl ⟨by simp, b, hbrest, hx⟩)
              | true =>
                have hkp : p.kind = Kind.varKeyword := by simpa using hkind
                simp [claimBadPair, plainOrdinary, defaultedSide, setsVargs, setsVkw,
                  hab, hkp, hx] at hcb
            · exact Or.inr (Or.inr hbad2)
        | false =>
          simp only [Bool.false_eq_true, if_false, createKeywordDoc]
          cases hl : lookupD keywords p.name with
          | none => exact ⟨_, rfl⟩
          | some info =>
            simp only
            apply ih
            rcases htrig with ⟨hf, b, hb, hbb⟩ | ⟨hf, _⟩ | hbad
            · rcases List.mem_cons.mp hb with hbp | hbrest
              · subst hbp
                rw [hab] at hbb
                cases hbb
              · exact Or.inl ⟨by simp, b, hbrest, hbb⟩
            · exact absurd hf (by simp)
            · simp only [someBadPair, Bool.or_eq_true, List.any_eq_true] at hbad
              rcases hbad with ⟨b, hbrest, hcb⟩ | hbad2
              · cases hx : isArgBranch b with
                | true => exact Or.inl ⟨by simp, b, hbrest, hx⟩
                | false =>
                  have hkp : ¬p.kind = Kind.varKeyword := by simpa using hkind
                  simp [claimBadPair, plainOrdinary, defaultedSide, setsVargs, setsVkw,
                    hab, hkp, hx] at hcb
              · exact Or.inr (Or.inr hbad2)
    | true =>
      cases hig : ignA.contains p.name with
      | true =>
        have hm : p.name ∈ ignA := by simpa using hig
        have hsurv : survives ignA ignK p = false := by simp [survives, hab, hm]
        rw [visible_cons, hsurv] at htrig
        simp only [Bool.false_eq_true, if_false] at htrig
        simp only [scanLoop, hab, if_true, hig]
        exact ih _ _ _ _ _ htrig
      | false =>
        have hm : p.name ∉ ignA := by simpa using hig
        have hsurv : survives ignA ignK p = true := by simp [survives, hab, hm]
        rw [visible_cons, hsurv] at htrig
        simp only [if_true] at htrig
        simp only [scanLoop, hab, if_true, hig, Bool.false_eq_true, if_false]
        cases hasK with
        | true => exact ⟨_, rfl⟩
        | false =>
        cases hasV with
        | true => exact ⟨_, rfl⟩
        | false =>
        simp only [Bool.false_eq_true, if_false]
        cases hkind : p.kind == Kind.varPositional with
        | true =>
          simp only [if_true]
          apply ih
          rcases htrig with ⟨hf, _⟩ | ⟨hf, b, hb, hbb⟩ | hbad
          · exact absurd hf (by simp)
          · rcases List.mem_cons.mp hb with hbp | hbrest
            · subst hbp
              rw [hab] at hbb
              cases hbb
            · exact Or.inr (Or.inl ⟨by simp, b, hbrest, hbb⟩)
          · simp only [someBadPair, Bool.or_eq_true, List.any_eq_true] at hbad
            rcases hbad with ⟨b, hbrest, hcb⟩ | hbad2
            · cases hx : isArgBranch b with
              | true => exact Or.inl ⟨by simp, b, hbrest, hx⟩
              | false =>
                have hkp : p.kind = Kind.varPositional := by simpa using hkind
                simp [claimBadPair, plainOrdinary, defaultedSide, setsVargs, setsVkw,
                  hab, hkp, hx] at hcb
            · exact Or.inr (Or.inr hbad2)
        | false =>
          simp only [Bool.false_eq_true, if_false, createArgumentDoc]
          cases hl : lookupD arguments p.name with
          | none => exact ⟨_, rfl⟩
          | some info =>
            simp only
            apply ih
            rcases htrig with ⟨hf, _⟩ | ⟨hf, b, hb, hbb⟩ | hbad
            · exact absurd hf (by simp)
            · rcases List.mem_cons.mp hb with hbp | hbrest
              · subst hbp
                rw [hab] at hbb
                cases hbb
              · exact Or.inr (Or.inl ⟨hf, b, hbrest, hbb⟩)
            · simp only [someBadPair, Bool.or_eq_true, List.any_eq_true] at hbad
              rcases hbad with ⟨b, hbrest, hcb⟩ | hbad2
              · have hkp : ¬p.kind = Kind.varPositional := by simpa using hkind
                simp [claimBadPair, plainOrdinary, defaultedSide, setsVargs, setsVkw,
                  hab, hkp] at hcb
              · exact Or.inr (Or.inr hbad2)

/-- Under the ordering discipline the scan accepts, the result is either
a success or a `KeyError` naming some non-ignored, unregistered
parameter of the signature. -/
theorem scanLoop_ordered_result (form : Form) (arguments keywords : List (String × Rec))
    (ignA ignK : List String) :
    ∀ (ps : List Param) (hasA hasK hasV hasVK : Bool) (doc : String),
    (hasV = true → visibleParams ignA ignK ps = []) →
    (hasK = true → ∀ p ∈ visibleParams ignA ignK ps, isArgBranch p = false) →
    (hasVK = true → ∀ p ∈ visibleParams ignA ignK ps, isArgBranch p = true) →
    (visibleParams ignA ignK ps).Pairwise (fun a b => allowedPair a b = true) →
    (∃ s, scanLoop form arguments keywords ignA ignK ps hasA hasK hasV hasVK doc = .ok s) ∨
    (∃ q, q ∈ visibleParams ignA ignK ps ∧ registeredFor arguments keywords q = false ∧
      scanLoop form arguments keywords ignA ignK ps hasA hasK hasV hasVK doc =
        .error (.keyError q.name)) := by
  intro ps
  induction ps with
  | nil =>
    intro hasA hasK hasV hasVK doc _ _ _ _
    exact Or.inl ⟨doc, rfl⟩
  | cons p rest ih =>
    intro hasA hasK hasV hasVK doc hV hK hVK hord
    cases hab : isArgBranch p with
    | false =>
      cases hig : ignK.contains p.name with
      | true =>
        have hm : p.name ∈ ignK := by simpa using hig
        have hsurv : survives ignA ignK p = false := by simp [survives, hab, hm]
        have hvis : visibleParams ignA ignK (p :: rest) = visibleParams ignA ignK rest := by
          rw [visible_cons, hsurv]
          simp
        rw [hvis] at hV hK hVK hord ⊢
        simp only [scanLoop, hab, Bool.false_eq_true, if_false, hig, if_true]
        exact ih _ _ _ _ _ hV hK hVK hord
      | false =>
        have hm : p.name ∉ ignK := by simpa using hig
        have hsurv : survives ignA ignK p = true := by simp [survives, hab, hm]
        have hvis : visibleParams ignA ignK (p :: rest) =
            p :: visibleParams ignA ignK rest := by
          rw [visible_cons, hsurv]
          simp
        rw [hvis] at hV hK hVK hord ⊢
        have hmem : p ∈ p :: visibleParams ignA ignK rest := List.mem_cons_self _ _
        have hVf : hasV = false := by
          cases hasV with
          | false => rfl
          | true => simpa using hV rfl
        have hVKf : hasVK = false := by
          cases hasVK with
          | false => rfl
          | true =>
            have h1 := hVK rfl p hmem
            rw [hab] at h1
            exact absurd h1 (by simp)
        subst hVf
        subst hVKf
        obtain ⟨hhead, htail⟩ := List.pairwise_cons.mp hord
        have hrestNoArg : ∀ b ∈ visibleParams ignA ignK rest, isArgBranch b = false := by
          intro b hb
          have h1 := hhead b hb
          cases hbb : isArgBranch b
          · rfl
          · simp [allowedPair, setsVargs, setsVkw, hab, hbb] at h1
        simp only [scanLoop, hab, Bool.false_eq_true, if_false, hig, if_true]
        cases hkind : p.kind == Kind.varKeyword with
        | true =>
          have hrestnil : visibleParams ignA ignK rest = [] := by
            cases hcase : visibleParams ignA ignK rest with
            | nil => rfl
            | cons b bs =>
              have hb := hhead b (by rw [hcase]; exact List.mem_cons_self _ _)
              have hbb := hrestNoArg b (by rw [hcase]; exact List.mem_cons_self _ _)
              simp [allowedPair, setsVargs, setsVkw, hab, hkind, hbb] at hb
          simp only [if_true]
          rcases ih hasA true false true
              ((if hasK then doc else doc ++ keywordHeader form) ++ vkwDoc form p)
              (by intro h; cases h)
              (by rw [hrestnil]; intro _ q hq; cases hq)
              (by rw [hrestnil]; intro _ q hq; cases hq)
              (by rw [hrestnil]; exact List.Pairwise.nil) with
            hok | ⟨q, hq, hqreg, herr⟩
          · exact Or.inl hok
          · exact Or.inr ⟨q, List.mem_cons_of_mem _ hq, hqreg, herr⟩
        | false =>
          simp only [Bool.false_eq_true, if_false, createKeywordDoc]
          cases hl : lookupD keywords p.name with
          | none =>
            refine Or.inr ⟨p, hmem, ?_, rfl⟩
            simp [registeredFor, hab, hkind, memD, hl]
          | some info =>
            simp only
            rcases ih hasA true false false
                ((if hasK then doc else doc ++ keywordHeader form) ++
                  kwEntryStr form p.name info p.default)
                (by intro h; cases h)
                (by intro _; exact hrestNoArg)
                (by intro h; cases h)
                htail with
              hok | ⟨q, hq, hqreg, herr⟩
            · exact Or.inl hok
            · exact Or.inr ⟨q, List.mem_cons_of_mem _ hq, hqreg, herr⟩
    | true =>
      cases hig : ignA.contains p.name with
      | true =>
        have hm : p.name ∈ ignA := by simpa using hig
        have hsurv : survives ignA ignK p = false := by simp [survives, hab, hm]
        have hvis : visibleParams ignA ignK (p :: rest) = visibleParams ignA ignK rest := by
          rw [visible_cons, hsurv]
          simp
        rw [hvis] at hV hK hVK hord ⊢
        simp only [scanLoop, hab, if_true, hig]
        exact ih _ _ _ _ _ hV hK hVK hord
      | false =>
        have hm : p.name ∉ ignA := by simpa using hig
        have hsurv : survives ignA ignK p = true := by simp [survives, hab, hm]
        have hvis : visibleParams ignA ignK (p :: rest) =
            p :: visibleParams ignA ignK rest := by
          rw [visible_cons, hsurv]
          simp
        rw [hvis] at hV hK hVK hord ⊢
        have hmem : p ∈ p :: visibleParams ignA ignK rest := List.mem_cons_self _ _
        have hVf : hasV = false := by
          cases hasV with
          | false => rfl
          | true => simpa using hV rfl
        have hKf : hasK = false := by
          cases hasK with
          | false => rfl
          | true =>
            have h1 := hK rfl p hmem
            rw [hab] at h1
            exact absurd h1 (by simp)
        subst hVf
        subst hKf
        obtain ⟨hhead, htail⟩ := List.pairwise_cons.mp hord
        simp only [scanLoop, hab, if_true, hig, Bool.false_eq_true, if_false]
        cases hkind : p.kind == Kind.varPositional with
        | true =>
          have hrestnil : visibleParams ignA ignK rest = [] := by
            cases hcase : visibleParams ignA ignK rest with
            | nil => rfl
            | cons b bs =>
              have hb := hhead b (by rw [hcase]; exact List.mem_cons_self _ _)
              cases hbb : isArgBranch b <;>
                simp [allowedPair, setsVargs, setsVkw, hab, hkind, hbb] at hb
          simp only [if_true]
          rcases ih true false true hasVK
              ((if hasA then doc else doc ++ argumentHeader form) ++ vargsDoc form p)
              (by rw [hrestnil]; intro _; rfl)
              (by intro h; cases h)
              (by rw [hrestnil]; intro _ q hq; cases hq)
              (by rw [hrestnil]; exact List.Pairwise.nil) with
            hok | ⟨q, hq, hqreg, herr⟩
          · exact Or.inl hok
          · exact Or.inr ⟨q, List.mem_cons_of_mem _ hq, hqreg, herr⟩
        | false =>
          simp only [Bool.false_eq_true, if_false, createArgumentDoc]
          cases hl : lookupD arguments p.name with
          | none =>
            refine Or.inr ⟨p, hmem, ?_, rfl⟩
            simp [registeredFor, hab, hkind, memD, hl]
          | some info =>
            simp only
            rcases ih true false false hasVK
                ((if hasA then doc else doc ++ argumentHeader form) ++
                  argEntryStr form p.name info)
                (by intro h; cases h)
                (by intro h; cases h)
                (by intro h q hq; exact hVK h q (List.mem_cons_of_mem _ hq))
                htail with
              hok | ⟨q, hq, hqreg, herr⟩
            · exact Or.inl hok
            · exact Or.inr ⟨q, List.mem_cons_of_mem _ hq, hqreg, herr⟩

/-! ### Flat-variant loop lemmas -/

/-- If every record of the keyword registry already carries a default,
the keyword loop never writes the registry back. -/
theorem oldKwLoop_frame (ignore : List String) :
    ∀ (defaultsRev argsRev : List String) (regKw acc : List (String × Rec)),
    (∀ kw info, lookupD regKw kw = some info → info.default.isSome = true) →
    (oldKwLoop ignore regKw argsRev defaultsRev acc).regKw = regKw := by
  intro defaultsRev
  induction defaultsRev with
  | nil =>
    intro argsRev regKw acc _
    cases argsRev <;> simp [oldKwLoop]
  | cons d drest ih =>
    intro argsRev regKw acc hdef
    cases argsRev with
    | nil => simp [oldKwLoop]
    | cons kw arest =>
      simp only [oldKwLoop]
      cases hig : ignore.contains kw with
      | true =>
        simp only [if_true]
        exact ih _ _ _ hdef
      | false =>
        simp only [Bool.false_eq_true, if_false]
        split
        · rfl
        · rename_i info hl
          split
          · exact ih _ _ _ hdef
          · rename_i hd
            have hds := hdef kw info hl
            rw [hd] at hds
            cases hds

/-- If some non-ignored popped keyword has no record in the keyword
registry, the keyword loop fails. -/
theorem oldKwLoop_err (ignore : List String) :
    ∀ (defaultsRev argsRev : List String) (regKw acc : List (String × Rec)),
    (∃ pr ∈ List.zip argsRev defaultsRev,
      ignore.contains pr.1 = false ∧ memD regKw pr.1 = false) →
    (oldKwLoop ignore regKw argsRev defaultsRev acc).err.isSome = true := by
  intro defaultsRev
  induction defaultsRev with
  | nil =>
    intro argsRev regKw acc h
    rcases h with ⟨pr, hpr, _⟩
    simp at hpr
  | cons d drest ih =>
    intro argsRev regKw acc h
    cases argsRev with
    | nil => simp [oldKwLoop]
    | cons kw arest =>
      rcases h with ⟨pr, hpr, hign, hmem⟩
      simp only [List.zip_cons_cons, List.mem_cons] at hpr
      simp only [oldKwLoop]
      rcases hpr with hprh | hprt
      · subst hprh
        simp only at hign hmem
        rw [hign]
        simp only [Bool.false_eq_true, if_false]
        split
        · simp
        · rename_i info hl
          rw [memD, hl] at hmem
          cases hmem
      · cases hig : ignore.contains kw with
        | true =>
          simp only [if_true]
          exact ih _ _ _ ⟨pr, hprt, hign, hmem⟩
        | false =>
          simp only [Bool.false_eq_true, if_false]
          split
          · simp
          · rename_i info hl
            split
            · exact ih _ _ _ ⟨pr, hprt, hign, hmem⟩
            · apply ih
              refine ⟨pr, hprt, hign, ?_⟩
              rw [memD_setD]
              have hkne : ¬kw = pr.1 := by
                intro he
                rw [← he, memD, hl] at hmem
                cases hmem
              simp [hkne, hmem]

/-- On success, the keyword loop consumes exactly one argument per
default. -/
theorem oldKwLoop_args (ignore : List String) :
    ∀ (defaultsRev argsRev : List String) (regKw acc : List (String × Rec)),
    (oldKwLoop ignore regKw argsRev defaultsRev acc).err = none →
    (oldKwLoop ignore regKw argsRev defaultsRev acc).argsRev =
      argsRev.drop defaultsRev.length := by
  intro defaultsRev
  induction defaultsRev with
  | nil =>
    intro argsRev regKw acc _
    cases argsRev <;> simp [oldKwLoop]
  | cons d drest ih =>
    intro argsRev regKw acc
    cases argsRev with
    | nil => intro herr; simp [oldKwLoop] at herr
    | cons kw arest =>
      simp only [oldKwLoop]
      cases hig : ignore.contains kw with
      | true =>
        simp only [if_true]
        intro herr
        rw [ih _ _ _ herr]
        simp
      | false =>
        simp only [Bool.false_eq_true, if_false]
        split
        · intro herr
          exact Option.noConfusion herr
        · split
          · intro herr
            rw [ih _ _ _ herr]
            simp
          · intro herr
            rw [ih _ _ _ herr]
            simp

/-- If some non-ignored remaining argument has no record in the
positional registry, the positional loop fails. -/
theorem oldPosLoop_err (ignore : List String) (regPos : List (String × Rec)) :
    ∀ (argsRev : List String) (acc : List (String × Rec)),
    (∃ a ∈ argsRev, ignore.contains a = false ∧ memD regPos a = false) →
    ((oldPosLoop ignore regPos argsRev acc).2).isSome = true := by
  intro argsRev
  induction argsRev with
  | nil =>
    intro acc h
    rcases h with ⟨a, ha, _⟩
    cases ha
  | cons a arest ih =>
    intro acc h
    rcases h with ⟨b, hb, hign, hmem⟩
    simp only [oldPosLoop]
    rcases List.mem_cons.mp hb with hba | hbrest
    · subst hba
      rw [hign]
      simp only [Bool.false_eq_true, if_false]
      split
      · simp
      · rename_i info hl
        rw [memD, hl] at hmem
        cases hmem
    · cases hig : ignore.contains a with
      | true =>
        simp only [if_true]
        exact ih _ ⟨b, hbrest, hign, hmem⟩
      | false =>
        simp only [Bool.false_eq_true, if_false]
        split
        · simp
        · exact ih _ ⟨b, hbrest, hign, hmem⟩

/-! ### Registration sequences and registry frame -/

/-- One registration call against an `ArgDoc` instance. -/
inductive RegCall where
  | positional (name : String) (typ : Typ) (desc : String) (force : Bool)
  | keyword (name : String) (typ : Typ) (desc : String) (default : Option String) (force : Bool)
deriving DecidableEq, Repr

/-- Apply a sequence of registration calls to a flat-variant instance
(each failed call raises and leaves the registry unchanged; the next
call proceeds from that state, as in `example.py`). -/
def applyRegsOld : RegPair → List RegCall → RegPair
  | reg, [] => reg
  | reg, .positional n t d f :: rest => applyRegsOld (registerPositional reg n t d f).1 rest
  | reg, .keyword n t d dft f :: rest => applyRegsOld (registerKeywordOld reg n t d dft f).1 rest

/-- Apply a sequence of registration calls to a package-variant instance. -/
def applyRegsNew : RegPair → List RegCall → RegPair
  | reg, [] => reg
  | reg, .positional n t d f :: rest => applyRegsNew (registerPositional reg n t d f).1 rest
  | reg, .keyword n t d dft f :: rest => applyRegsNew (registerKeywordNew reg n t d dft f).1 rest

/-- The registry state after a flat-variant decoration: the positional
namespace is passed through untouched and the keyword namespace is
whatever the keyword loop left behind, on success and on error alike. -/
theorem oldCall_reg (reg : RegPair) (ignore : List String) (obj : OldObj) :
    (oldCall reg ignore obj).reg =
      { positional := reg.positional,
        keywords :=
          (oldKwLoop ignore reg.keywords obj.args.reverse obj.defaults.reverse []).regKw } := by
  simp only [oldCall]
  split
  · rfl
  · split
    · rfl
    · rfl

/-! ### Claim theorems -/

/-- C5: the spec demands a fatal MissingDocstring error for a callable
without a documentation string, but the guard `hasattr(obj, __doc__)`
is always true for Python callables (the attribute exists with value
`None`), so both variants treat the missing docstring as the empty
string and return an augmented docstring instead of raising.  Evaluated
at the failing input (a callable with no docstring and no parameters):
both decorators succeed, producing the bare trailing marker line. -/
theorem c5_missing_docstring_not_fatal :
    documentNew .numpy [] [] [] [] [] { doc := none, params := [] } =
      .ok { doc := some "    \n", params := [] } ∧
    oldCall emptyReg [] { doc := none, args := [], defaults := [] } =
      { reg := emptyReg,
        obj := { doc := some "    \n", args := [], defaults := [] },
        err := none } := by
  exact ⟨rfl, rfl⟩

/-- C3: re-registering a name present in a namespace with `force=false`
always fails with the duplicate-registration `KeyError` naming the
namespace and the name; with `force=true` it always succeeds and a
subsequent lookup returns the type and description of the later call (and,
for the package-variant keyword registration, its default). -/
theorem c3_duplicate_registration (reg : RegPair) (n : String) (t1 t2 : Typ)
    (d1 d2 : String) (dft : Option String)
    (hp : memD reg.positional n = true) (hk : memD reg.keywords n = true) :
    (registerPositional reg n t1 d1 false).2 =
        some (.keyError s!"Positional argument {n} already registered.") ∧
    (registerKeywordNew reg n t1 d1 dft false).2 =
        some (.keyError s!"Keyword argument {n} already registered.") ∧
    ((registerPositional reg n t2 d2 true).2 = none ∧
      lookupD (registerPositional reg n t2 d2 true).1.positional n =
        some { type := displayTyp t2, desc := d2, default := none }) ∧
    ((registerKeywordNew reg n t2 d2 dft true).2 = none ∧
      lookupD (registerKeywordNew reg n t2 d2 dft true).1.keywords n =
        some { type := displayTyp t2, desc := d2, default := dft }) := by
  refine ⟨?_, ?_, ⟨?_, ?_⟩, ⟨?_, ?_⟩⟩
  · simp only [registerPositional, registerParam, Bool.not_false, Bool.true_and, hp, if_true]
    rfl
  · simp only [registerKeywordNew, registerParam, Bool.not_false, Bool.true_and, hk, if_true]
    rfl
  · cases dft <;> simp [registerPositional, registerParam]
  · simp [registerPositional, registerParam, lookupD_setD]
  · cases dft <;> simp [registerKeywordNew, registerParam]
  · cases dft <;> simp [registerKeywordNew, registerParam, lookupD_setD]

/-- Witness for C3 at a concrete registry holding `x` in both
namespaces. -/
theorem c3_duplicate_registration_witness :
    (memD ([("x", { type := "int", desc := "d", default := none })] : List (String × Rec))
        "x" = true ∧
      memD ([("x", { type := "int", desc := "d", default := some "7" })] : List (String × Rec))
        "x" = true) ∧
    (registerPositional
        { positional := [("x", { type := "int", desc := "d", default := none })],
          keywords := [("x", { type := "int", desc := "d", default := some "7" })] }
        "x" (.cls "str") "newdesc" false).2 =
      some (.keyError "Positional argument x already registered.") :=
  ⟨⟨by decide, by decide⟩,
    (c3_duplicate_registration
      { positional := [("x", { type := "int", desc := "d", default := none })],
        keywords := [("x", { type := "int", desc := "d", default := some "7" })] }
      "x" (.cls "str") (.cls "str") "newdesc" "newdesc" none
      (by decide) (by decide)).1⟩

/-- C10: a duplicate-name registration failure (`force=false`, name
present) leaves the whole registry pair exactly as it was: the existing
record is not overwritten and nothing is added, in the registration operations of either variant. -/
theorem c10_registration_atomic_on_failure (reg : RegPair) (n : String) (t : Typ)
    (d : String) (dft : Option String) :
    (memD reg.positional n = true →
      (registerPositional reg n t d false).1 = reg ∧
      ((registerPositional reg n t d false).2).isSome = true) ∧
    (memD reg.keywords n = true →
      (registerKeywordNew reg n t d dft false).1 = reg ∧
      ((registerKeywordNew reg n t d dft false).2).isSome = true) ∧
    (memD reg.keywords n = true →
      (registerKeywordOld reg n t d dft false).1 = reg ∧
      ((registerKeywordOld reg n t d dft false).2).isSome = true) := by
  refine ⟨fun hp => ⟨?_, ?_⟩, fun hk1 => ⟨?_, ?_⟩, fun hk2 => ⟨?_, ?_⟩⟩
  · simp [registerPositional, registerParam, hp]
  · simp [registerPositional, registerParam, hp]
  · simp [registerKeywordNew, registerParam, hk1]
  · simp [registerKeywordNew, registerParam, hk1]
  · simp [registerKeywordOld, registerParam, hk2]
  · simp [registerKeywordOld, registerParam, hk2]

/-- Witness for C10 at a concrete registry holding `x`. -/
theorem c10_registration_atomic_on_failure_witness :
    memD ([("x", { type := "int", desc := "d", default := none })] : List (String × Rec))
      "x" = true ∧
    (registerPositional
        { positional := [("x", { type := "int", desc := "d", default := none })],
          keywords := [] }
        "x" (.cls "str") "other" false).1 =
      { positional := [("x", { type := "int", desc := "d", default := none })],
        keywords := [] } :=
  ⟨by decide,
    ((c10_registration_atomic_on_failure
      { positional := [("x", { type := "int", desc := "d", default := none })],
        keywords := [] }
      "x" (.cls "str") "other" none).1 (by decide)).1⟩

/-- C6 counterexample: decorating with the flat variant mutates the
registry.  With keyword `x` registered without a default, decorating
`f(x=5)` back-fills the discovered default `5` into the stored record,
so the registry after decoration differs from the registry before. -/
theorem c6_counterexample :
    (oldCall
        { positional := [],
          keywords := [("x", { type := "str", desc := "D", default := none })] }
        [] { doc := some "A.", args := ["x"], defaults := ["5"] }).reg ≠
      { positional := [],
        keywords := [("x", { type := "str", desc := "D", default := none })] } := by
  decide

/-- C6 amended: the flat variant decoration leaves the positional
namespace untouched, and leaves the whole registry unchanged whenever
every record of the keyword namespace already carries a default (the
only write is the default back-fill). -/
theorem c6_amended_registry_frame (reg : RegPair) (ignore : List String) (obj : OldObj)
    (hdef : ∀ kw info, lookupD reg.keywords kw = some info → info.default.isSome = true) :
    (oldCall reg ignore obj).reg.positional = reg.positional ∧
    (oldCall reg ignore obj).reg = reg := by
  have hframe := oldKwLoop_frame ignore obj.defaults.reverse obj.args.reverse
    reg.keywords [] hdef
  rw [oldCall_reg, hframe]
  exact ⟨rfl, rfl⟩

/-- Witness for C6 amended: a registry whose keyword records all carry
defaults is unchanged by decoration. -/
theorem c6_amended_registry_frame_witness :
    (∀ kw info,
      lookupD ([("x", { type := "str", desc := "D", default := some "7" })] :
        List (String × Rec)) kw = some info → info.default.isSome = true) ∧
    (oldCall
        { positional := [],
          keywords := [("x", { type := "str", desc := "D", default := some "7" })] }
        [] { doc := some "A.", args := ["x"], defaults := ["5"] }).reg =
      { positional := [],
        keywords := [("x", { type := "str", desc := "D", default := some "7" })] } := by
  have hdef : ∀ kw info,
      lookupD ([("x", { type := "str", desc := "D", default := some "7" })] :
        List (String × Rec)) kw = some info → info.default.isSome = true := by
    intro kw info h
    simp only [lookupD] at h
    by_cases hx : "x" = kw
    · rw [if_pos hx] at h
      cases h
      rfl
    · rw [if_neg hx] at h
      cases h
  exact ⟨hdef,
    (c6_amended_registry_frame
      { positional := [],
        keywords := [("x", { type := "str", desc := "D", default := some "7" })] }
      [] { doc := some "A.", args := ["x"], defaults := ["5"] } hdef).2⟩

/-- C9 counterexample: in the flat variant a keyword registered without
a default does NOT always fall back to the own declared default of the decorated callable.  The first decoration back-fills its discovered
default (`valA`) into the shared registry record, so a second decoration
of a different callable (declared default `valB`) still renders
`Default: valA`. -/
theorem c9_counterexample :
    (oldCall
        (oldCall
          { positional := [],
            keywords := [("x", { type := "str", desc := "D", default := none })] }
          [] { doc := some "A.", args := ["x"], defaults := ["valA"] }).reg
        [] { doc := some "B.", args := ["x"], defaults := ["valB"] }).obj.doc =
      some ("B." ++ "\n\nKeyword Arguments\n-----------------\n" ++
        "x : str, optional\n    D Default: valA\n" ++ "    \n") := by
  decide

/-- C9 amended: registering a defaulted parameter with `default=None`
stores a record without a default field, and in the package variant a
keyword entry for such a record always renders the default discovered
from the own signature of the decorated callable; in the flat variant this
holds only until a decoration back-fills the record. -/
theorem c9_amended_none_default (store : List (String × Rec)) (n : String) (t : Typ)
    (ds errstr : String) (force : Bool) (kws : List (String × Rec))
    (pn it idesc dsig : String) (pk : Kind)
    (hnondup : (!force && memD store n) = false)
    (hl : lookupD kws pn = some { type := it, desc := idesc, default := none }) :
    lookupD (registerParam errstr store n t ds none force).1 n =
      some { type := displayTyp t, desc := ds, default := none } ∧
    createKeywordDoc .numpy kws { name := pn, kind := pk, default := some dsig } =
      .ok s!"{pn} : {it}, optional\n    {idesc} Default: {dsig}\n" := by
  constructor
  · simp [registerParam, hnondup, lookupD_setD]
  · simp [createKeywordDoc, hl, kwEntryStr]

/-- Witness for C9 amended: concrete registration of `kw2` without a
default and rendering against a callable whose own default is `Test2`. -/
theorem c9_amended_none_default_witness :
    ((!false && memD ([] : List (String × Rec)) "kw2") = false ∧
      lookupD ([("kw2", { type := "str", desc := "D2", default := none })] :
        List (String × Rec)) "kw2" =
        some { type := "str", desc := "D2", default := none }) ∧
    createKeywordDoc .numpy
        [("kw2", { type := "str", desc := "D2", default := none })]
        { name := "kw2", kind := .positionalOrKeyword, default := some "Test2" } =
      .ok "kw2 : str, optional\n    D2 Default: Test2\n" :=
  ⟨⟨by decide, by decide⟩,
    (c9_amended_none_default [] "kw2" (.cls "str") "D2" "Keyword argument" false
      [("kw2", { type := "str", desc := "D2", default := none })]
      "kw2" "str" "D2" "Test2" .positionalOrKeyword (by decide) (by decide)).2⟩

/-- C4: a defaulted parameter whose registry record carries a default
renders that default, even though the callable declares a different
literal default in its own signature — in both variants, end to end. -/
theorem c4_registry_default_wins (doc0 pn it idesc dreg dsig : String) :
    documentNew .numpy [] [(pn, { type := it, desc := idesc, default := some dreg })]
        [] [] [] { doc := some doc0, params := [⟨pn, .positionalOrKeyword, some dsig⟩] } =
      .ok { doc := some (doc0 ++ "\n\nKeyword Arguments\n-----------------\n" ++
              s!"{pn} : {it}, optional\n    {idesc} Default: {dreg}\n" ++ "    \n"),
            params := [⟨pn, .positionalOrKeyword, some dsig⟩] } ∧
    (oldCall
        { positional := [],
          keywords := [(pn, { type := it, desc := idesc, default := some dreg })] }
        [] { doc := some doc0, args := [pn], defaults := [dsig] }).obj.doc =
      some (pyStrip doc0 ++ "\n\nKeyword Arguments\n-----------------\n" ++
        s!"{pn} : {it}, optional\n    {idesc} Default: {dreg}\n" ++ "    \n") := by
  constructor
  · simp [documentNew, scanLoop, isArgBranch, positionalKinds, createKeywordDoc, lookupD,
      kwEntryStr, keywordHeader, String.append_assoc]
  · simp [oldCall, oldKwLoop, oldPosLoop, lookupD, setD, renderOldEntries,
      createNumpyFormatArgument, String.append_assoc]

/-- The exception of a flat-variant decoration: the keyword loop exception if any, else the positional loop one. -/
theorem oldCall_err (reg : RegPair) (ignore : List String) (obj : OldObj) :
    (oldCall reg ignore obj).err =
      ((oldKwLoop ignore reg.keywords obj.args.reverse obj.defaults.reverse []).err).orElse
        (fun _ => (oldPosLoop ignore reg.positional
          (oldKwLoop ignore reg.keywords obj.args.reverse obj.defaults.reverse []).argsRev
          []).2) := by
  simp only [oldCall]
  split
  · rename_i e heq
    rw [heq]
    rfl
  · rename_i heq
    rw [heq]
    split
    · rename_i e2 heq2
      rw [heq2]
      rfl
    · rename_i heq2
      rw [heq2]
      rfl

/-- C8: rendering is deterministic — two registries built by identical
registration sequences from fresh instances yield identical decoration
results for the same callable, in both variants. -/
theorem c8_deterministic (calls : List RegCall) (ignore ignA ignK : List String)
    (form : Form) (raises : List (String × String)) (o : OldObj) (o2 : NewObj)
    (r1 r2 g1 g2 : RegPair)
    (h1 : r1 = applyRegsOld emptyReg calls) (h2 : r2 = applyRegsOld emptyReg calls)
    (hg1 : g1 = applyRegsNew emptyReg calls) (hg2 : g2 = applyRegsNew emptyReg calls) :
    oldCall r1 ignore o = oldCall r2 ignore o ∧
    documentNew form g1.positional g1.keywords raises ignA ignK o2 =
      documentNew form g2.positional g2.keywords raises ignA ignK o2 := by
  subst h1
  subst h2
  subst hg1
  subst hg2
  exact ⟨rfl, rfl⟩

/-- Witness for C8 on a concrete registration sequence and callable. -/
theorem c8_deterministic_witness :
    (applyRegsOld emptyReg [.positional "x" (.cls "int") "dx" false] =
      applyRegsOld emptyReg [.positional "x" (.cls "int") "dx" false]) ∧
    oldCall (applyRegsOld emptyReg [.positional "x" (.cls "int") "dx" false]) []
        { doc := some "Z.", args := ["x"], defaults := [] } =
      oldCall (applyRegsOld emptyReg [.positional "x" (.cls "int") "dx" false]) []
        { doc := some "Z.", args := ["x"], defaults := [] } :=
  ⟨rfl,
    (c8_deterministic [.positional "x" (.cls "int") "dx" false] [] [] [] .numpy []
      { doc := some "Z.", args := ["x"], defaults := [] }
      { doc := some "Z.", params := [] }
      (applyRegsOld emptyReg [.positional "x" (.cls "int") "dx" false])
      (applyRegsOld emptyReg [.positional "x" (.cls "int") "dx" false])
      (applyRegsNew emptyReg [.positional "x" (.cls "int") "dx" false])
      (applyRegsNew emptyReg [.positional "x" (.cls "int") "dx" false])
      rfl rfl rfl rfl).1⟩

/-- C2 counterexample: the unregistered-parameter error does not
identify the offending callable.  Two distinct callables with the same
unregistered parameter produce literally the same `KeyError "x"`, so
the error cannot name the callable. -/
theorem c2_counterexample :
    documentNew .numpy [] [] [] [] []
        { doc := some "First callable.", params := [⟨"x", .positionalOrKeyword, none⟩] } =
      .error (.keyError "x") ∧
    documentNew .numpy [] [] [] [] []
        { doc := some "Second, different callable.",
          params := [⟨"x", .positionalOrKeyword, none⟩] } =
      .error (.keyError "x") ∧
    ({ doc := some "First callable.", params := [⟨"x", .positionalOrKeyword, none⟩] } :
        NewObj) ≠
      { doc := some "Second, different callable.",
        params := [⟨"x", .positionalOrKeyword, none⟩] } := by
  exact ⟨rfl, rfl, by decide⟩

/-- C2 amended: decorating a callable with a non-ignored, unregistered
parameter never succeeds; under the ordering discipline the scan
accepts, the package variant raises the `KeyError` of an unregistered
non-ignored parameter (naming the parameter, not the callable); the
flat variant likewise raises whenever a popped keyword or a remaining
positional argument is non-ignored and unregistered. -/
theorem c2_amended_unregistered_fails (form : Form)
    (arguments keywords : List (String × Rec)) (raises : List (String × String))
    (ignA ignK : List String) (obj : NewObj)
    (hunreg : ∃ p ∈ visibleParams ignA ignK obj.params,
      registeredFor arguments keywords p = false) :
    (∀ r, documentNew form arguments keywords raises ignA ignK obj ≠ .ok r) ∧
    ((visibleParams ignA ignK obj.params).Pairwise (fun a b => allowedPair a b = true) →
      ∃ q, q ∈ visibleParams ignA ignK obj.params ∧
        registeredFor arguments keywords q = false ∧
        documentNew form arguments keywords raises ignA ignK obj =
          .error (.keyError q.name)) ∧
    (∀ (reg : RegPair) (ignore : List String) (o : OldObj),
      ((∃ pr ∈ List.zip o.args.reverse o.defaults.reverse,
          ignore.contains pr.1 = false ∧ memD reg.keywords pr.1 = false) ∨
       (∃ a ∈ o.args.reverse.drop o.defaults.reverse.length,
          ignore.contains a = false ∧ memD reg.positional a = false)) →
      ((oldCall reg ignore o).err).isSome = true) := by
  refine ⟨?_, ?_, ?_⟩
  · intro r hok
    cases hscan : scanLoop form arguments keywords ignA ignK obj.params
        false false false false (match obj.doc with | some s => s | none => "") with
    | error e =>
      have hde : documentNew form arguments keywords raises ignA ignK obj = .error e := by
        simp only [documentNew, hscan]
      rw [hde] at hok
      cases hok
    | ok s =>
      obtain ⟨p, hp, hpreg⟩ := hunreg
      have h2 := scanLoop_ok_registered form arguments keywords ignA ignK obj.params
        false false false false _ _ hscan p hp
      rw [hpreg] at h2
      cases h2
  · intro hord
    rcases scanLoop_ordered_result form arguments keywords ignA ignK obj.params
        false false false false (match obj.doc with | some s => s | none => "")
        (by intro h; cases h) (by intro h; cases h) (by intro h; cases h) hord with
      ⟨s, hs⟩ | ⟨q, hq, hqreg, herr⟩
    · obtain ⟨p, hp, hpreg⟩ := hunreg
      have h2 := scanLoop_ok_registered form arguments keywords ignA ignK obj.params
        false false false false _ _ hs p hp
      rw [hpreg] at h2
      cases h2
    · exact ⟨q, hq, hqreg, by simp only [documentNew, herr]⟩
  · intro reg ignore o hyp
    rw [oldCall_err]
    rcases hyp with ⟨pr, hpr, hig, hmem⟩ | ⟨a, ha, hig, hmem⟩
    · have hkw := oldKwLoop_err ignore o.defaults.reverse o.args.reverse reg.keywords []
        ⟨pr, hpr, hig, hmem⟩
      cases hke : (oldKwLoop ignore reg.keywords o.args.reverse o.defaults.reverse []).err with
      | some e => rfl
      | none =>
        rw [hke, Option.isSome] at hkw
        cases hkw
    · cases hke : (oldKwLoop ignore reg.keywords o.args.reverse o.defaults.reverse []).err with
      | some e => rfl
      | none =>
        have hargs := oldKwLoop_args ignore o.defaults.reverse o.args.reverse
          reg.keywords [] hke
        have hpos := oldPosLoop_err ignore reg.positional
          (o.args.reverse.drop o.defaults.reverse.length) [] ⟨a, ha, hig, hmem⟩
        simp only [Option.orElse]
        rw [hargs]
        exact hpos

/-- Witness for C2 amended: `f(x)` with an empty registry. -/
theorem c2_amended_unregistered_fails_witness :
    (∃ p ∈ visibleParams [] [] ([⟨"x", .positionalOrKeyword, none⟩] : List Param),
      registeredFor [] [] p = false) ∧
    ∀ r, documentNew .numpy [] [] [] [] []
        { doc := some "Doc.", params := [⟨"x", .positionalOrKeyword, none⟩] } ≠ .ok r :=
  ⟨by decide,
    (c2_amended_unregistered_fails .numpy [] [] [] [] []
      { doc := some "Doc.", params := [⟨"x", .positionalOrKeyword, none⟩] }
      (by decide)).1⟩

/-- C7: a non-ignored ordinary parameter after a defaulted or
variadic-positional parameter, or a non-ignored defaulted parameter
after the variadic-keyword capture, always makes decoration fail; when
every non-ignored parameter is registered (so registry lookups cannot
fail first), the failure is the `ValueError` that models
MalformedSignature. -/
theorem c7_malformed_signature_errors (form : Form)
    (arguments keywords : List (String × Rec)) (raises : List (String × String))
    (ignA ignK : List String) (obj : NewObj)
    (hbad : someBadPair (visibleParams ignA ignK obj.params) = true) :
    (∃ e, documentNew form arguments keywords raises ignA ignK obj = .error e) ∧
    ((∀ p ∈ visibleParams ignA ignK obj.params,
        registeredFor arguments keywords p = true) →
      ∃ msg, documentNew form arguments keywords raises ignA ignK obj =
        .error (.valueError msg)) := by
  obtain ⟨e, he⟩ := scanLoop_bad_err form arguments keywords ignA ignK obj.params
    false false false false (match obj.doc with | some s => s | none => "")
    (Or.inr (Or.inr hbad))
  constructor
  · exact ⟨e, by simp only [documentNew, he]⟩
  · intro hreg
    rcases scanLoop_reg_result form arguments keywords ignA ignK obj.params
        false false false false (match obj.doc with | some s => s | none => "") hreg with
      ⟨s, hs⟩ | ⟨msg, hmsg⟩
    · rw [hs] at he
      cases he
    · exact ⟨msg, by simp only [documentNew, hmsg]⟩

/-- Witness for C7: `f(b=1, a)` with both parameters registered raises
the ordering `ValueError`. -/
theorem c7_malformed_signature_errors_witness :
    someBadPair (visibleParams [] []
        ([⟨"b", .positionalOrKeyword, some "1"⟩, ⟨"a", .positionalOrKeyword, none⟩] :
          List Param)) = true ∧
    ∃ e, documentNew .numpy [("a", { type := "int", desc := "dA", default := none })]
        [("b", { type := "int", desc := "dB", default := none })] [] [] []
        { doc := some "Doc.",
          params := [⟨"b", .positionalOrKeyword, some "1"⟩,
                     ⟨"a", .positionalOrKeyword, none⟩] } = .error e :=
  ⟨by decide,
    (c7_malformed_signature_errors .numpy
      [("a", { type := "int", desc := "dA", default := none })]
      [("b", { type := "int", desc := "dB", default := none })] [] [] []
      { doc := some "Doc.",
        params := [⟨"b", .positionalOrKeyword, some "1"⟩,
                   ⟨"a", .positionalOrKeyword, none⟩] }
      (by decide)).1⟩

/-- C1 counterexample.  First: the flat variant emits entries in
REVERSE declaration order — decorating `f(a, b)` with both parameters
registered yields the entry for `b` before the entry for `a`.  Second:
the package variant does not satisfy "never raises" for every fully
registered callable — `f(*args, b=1)` with `b` registered raises the
ordering `ValueError` because a keyword-side parameter follows the
variadic-positional capture. -/
theorem c1_counterexample :
    (oldCall
        { positional := [("a", { type := "int", desc := "dA", default := none }),
                         ("b", { type := "str", desc := "dB", default := none })],
          keywords := [] }
        [] { doc := some "Base.", args := ["a", "b"], defaults := [] }).obj.doc =
      some ("Base." ++ "\n\nArguments\n----------\n" ++
        "b : str\n    dB\n" ++ "a : int\n    dA\n" ++ "    \n") ∧
    documentNew .numpy [] [("b", { type := "int", desc := "dB", default := none })]
        [] [] []
        { doc := some "Base.",
          params := [⟨"args", .varPositional, none⟩, ⟨"b", .keywordOnly, some "1"⟩] } =
      .error (.valueError "Keyword encountered after vargs") := by
  exact ⟨by decide, rfl⟩

/-- C1 amended: in the package variant, for every callable whose
non-ignored parameter sequence passes the scanner ordering discipline
and whose every non-ignored parameter is registered in the applicable
namespace, decoration never raises and the produced documentation string
is the original docstring followed by `specSections` — exactly one
rendered entry per non-ignored parameter, ordinary entries then keyword
entries, each in declared signature order — the raises section, and the
trailing marker line. -/
theorem c1_amended_render_characterisation (form : Form)
    (arguments keywords : List (String × Rec)) (raises : List (String × String))
    (ignA ignK : List String) (doc0 : String) (ps : List Param)
    (hord : (visibleParams ignA ignK ps).Pairwise (fun a b => allowedPair a b = true))
    (hreg : ∀ p ∈ visibleParams ignA ignK ps, registeredFor arguments keywords p = true) :
    documentNew form arguments keywords raises ignA ignK { doc := some doc0, params := ps } =
      .ok { doc := some (((doc0 ++ specSections form arguments keywords ignA ignK false false ps) ++
              (if raises.isEmpty then "" else errorHeader form ++ renderRaises form raises)) ++
              "    \n"),
            params := ps } := by
  have h := scanLoop_ok form arguments keywords ignA ignK ps false false false false doc0
    (by intro h2; cases h2) (by intro h2; cases h2) (by intro h2; cases h2) hord hreg
  simp only [documentNew, h]
  cases hre : raises.isEmpty <;> simp [String.append_assoc]

/-- Witness for C1 amended: the example scenario of the specification —
register ordinary `x : int`, decorate `f(x)` whose docstring is
`"Does nothing."`. -/
theorem c1_amended_render_characterisation_witness :
    ((visibleParams [] [] ([⟨"x", .positionalOrKeyword, none⟩] : List Param)).Pairwise
        (fun a b => allowedPair a b = true) ∧
      (∀ p ∈ visibleParams [] [] ([⟨"x", .positionalOrKeyword, none⟩] : List Param),
        registeredFor [("x", { type := "int", desc := "the x value", default := none })]
          [] p = true)) ∧
    documentNew .numpy [("x", { type := "int", desc := "the x value", default := none })]
        [] [] [] [] { doc := some "Does nothing.",
                      params := [⟨"x", .positionalOrKeyword, none⟩] } =
      .ok { doc := some ((("Does nothing." ++
              specSections .numpy
                [("x", { type := "int", desc := "the x value", default := none })] [] [] []
                false false [⟨"x", .positionalOrKeyword, none⟩]) ++
              (if ([] : List (String × String)).isEmpty then ""
               else errorHeader .numpy ++ renderRaises .numpy [])) ++ "    \n"),
            params := [⟨"x", .positionalOrKeyword, none⟩] } :=
  ⟨⟨by decide, by decide⟩,
    c1_amended_render_characterisation .numpy
      [("x", { type := "int", desc := "the x value", default := none })] [] [] [] []
      "Does nothing." [⟨"x", .positionalOrKeyword, none⟩] (by decide) (by decide)⟩

end Argdoc
